import Mathlib

/-!
Shallow embedding of the SlideQuest session-synchronization core.

Source files embedded here:
  * `src/lib/sessionStore.ts` — the in-memory session registry with its
    feedback log and current-slide cell (`sessions` Map, `getSession`,
    `addFeedback`, `getFeedback`, `deleteSession`, `updateCurrentSlide`,
    `getCurrentSlide`, and the 30-minute cleanup sweep).
  * `src/app/api/sessions/[sessionId]/stream/route.ts` — the SSE stream
    `GET` handler (watermark-based delta polling) and the slide `POST`/`GET`
    handlers.
  * the feedback-submission `POST` handler (session check, text validation,
    `addFeedback`).

Modelling conventions:
  * The code stores instants as ISO-8601 UTC strings and compares them with
    JavaScript `<` (lexicographic order). For fixed-format ISO-8601 UTC
    strings lexicographic order coincides with chronological order, so
    instants are embedded as `Nat` and string `<` as `Nat` `<`.
  * `nanoid` id generation is impure; fresh ids are passed explicitly as
    arguments to the operations that mint them.
  * The `sessions` JavaScript `Map` becomes an association list with
    `Map.get` / `Map.set` / `Map.delete` counterparts `storeGet` /
    `storeSet` / `storeDel`; keys are unique in every reachable store.
  * Operations with eviction side effects return the updated store
    alongside their result.
-/

/-- `Feedback` record from `src/types/feedback` as built by `addFeedback`:
`{id, sessionId, text, timestamp}`. -/
structure Feedback where
  id : String
  sessionId : String
  text : String
  timestamp : Nat
deriving DecidableEq, Repr

/-- `originalIdea` nested object of `SlideData` (`sessionStore.ts`). -/
structure OriginalIdea where
  title : String
  content : String
  category : String
deriving DecidableEq, Repr

/-- `SlideData` interface from `sessionStore.ts`: a slide snapshot with
optional display fields. The sync core treats the payload as opaque. -/
structure SlideData where
  id : String
  imageUrl : Option String := none
  headline : Option String := none
  subheadline : Option String := none
  bullets : Option (List String) := none
  backgroundColor : Option String := none
  originalIdea : Option OriginalIdea := none
  timestamp : Option String := none
deriving DecidableEq, Repr

/-- The public `Session` shape `{id, createdAt, expiresAt}` returned by
`createSession` / `getSession`. -/
structure Session where
  id : String
  createdAt : Nat
  expiresAt : Nat
deriving DecidableEq, Repr

/-- `SessionData`: the in-memory record held in the `sessions` Map —
the `Session` fields plus the feedback log and the current slide. -/
structure SessionData where
  id : String
  createdAt : Nat
  expiresAt : Nat
  feedback : List Feedback
  currentSlide : Option SlideData
deriving DecidableEq, Repr

/-- Public view of a stored session, as returned by `getSession`. -/
def SessionData.toSession (sd : SessionData) : Session :=
  { id := sd.id, createdAt := sd.createdAt, expiresAt := sd.expiresAt }

/-- The `sessions` Map: an association list from session id to data. -/
abbrev Store := List (String × SessionData)

/-- `sessions.get(id)`. -/
def storeGet : Store → String → Option SessionData
  | [], _ => none
  | (k, v) :: rest, sid => if k = sid then some v else storeGet rest sid

/-- `sessions.set(id, data)`: replace in place, or append when absent. -/
def storeSet : Store → String → SessionData → Store
  | [], sid, sd => [(sid, sd)]
  | (k, v) :: rest, sid, sd =>
      if k = sid then (sid, sd) :: rest else (k, v) :: storeSet rest sid sd

/-- `sessions.delete(id)`. -/
def storeDel (s : Store) (sid : String) : Store :=
  s.filter (fun e => !(e.1 = sid : Bool))

/-- `createSession()` (`sessionStore.ts` lines 92-109): mint a session with
`createdAt = now`, `expiresAt = now + 4h`, empty feedback, no slide.
The fresh `nanoid(8)` id and the clock are explicit arguments; the TTL is
4 hours in milliseconds. -/
def createSession (now : Nat) (freshId : String) (s : Store) : Session × Store :=
  let session : SessionData :=
    { id := freshId
      createdAt := now
      expiresAt := now + 4 * 60 * 60 * 1000
      feedback := []
      currentSlide := none }
  (session.toSession, storeSet s freshId session)

/-- `getSession(sessionId)` (`sessionStore.ts` lines 115-126): `null` when
absent; when present but `expiresAt < now`, delete the session (lazy
eviction) and return `null`; otherwise return the public view. -/
def getSession (now : Nat) (s : Store) (sessionId : String) :
    Option Session × Store :=
  match storeGet s sessionId with
  | none => (none, s)
  | some session =>
      if session.expiresAt < now then (none, storeDel s sessionId)
      else (some session.toSession, s)

/-- The feedback value built by `addFeedback`: fresh id, owning session,
raw text, `timestamp = now`. -/
def mkFeedback (freshId sessionId text : String) (now : Nat) : Feedback :=
  { id := freshId, sessionId := sessionId, text := text, timestamp := now }

/-- `addFeedback(sessionId, text)` (`sessionStore.ts` lines 132-153):
`null` when the session is absent; lazy eviction when expired; otherwise
push `{id: nanoid(8), sessionId, text, timestamp: now}` onto the session's
feedback array and return it. -/
def addFeedback (now : Nat) (freshId : String) (s : Store)
    (sessionId text : String) : Option Feedback × Store :=
  match storeGet s sessionId with
  | none => (none, s)
  | some session =>
      if session.expiresAt < now then (none, storeDel s sessionId)
      else
        let fb := mkFeedback freshId sessionId text now
        (some fb, storeSet s sessionId
          { session with feedback := session.feedback ++ [fb] })

/-- `getFeedback(sessionId, since?)` (`sessionStore.ts` lines 159-174):
`[]` when absent; lazy eviction (and `[]`) when expired; with `since`
present, the items with `timestamp > since`; otherwise the whole log.
(`since` is optional; the only falsy string is the empty string, which the
callers never pass, so the `if (since)` test is embedded as the `Option`
match.) -/
def getFeedback (now : Nat) (s : Store) (sessionId : String)
    (since : Option Nat) : List Feedback × Store :=
  match storeGet s sessionId with
  | none => ([], s)
  | some session =>
      if session.expiresAt < now then ([], storeDel s sessionId)
      else
        match since with
        | some t => (session.feedback.filter (fun f => decide (t < f.timestamp)), s)
        | none => (session.feedback, s)

/-- `deleteSession(sessionId)` (`sessionStore.ts` lines 179-182). -/
def deleteSession (s : Store) (sessionId : String) : Store :=
  storeDel s sessionId

/-- `updateCurrentSlide(sessionId, slide)` (`sessionStore.ts` lines
188-201): `false` when absent; lazy eviction when expired; otherwise
overwrite `currentSlide` (possibly with `null`) and return `true`. -/
def updateCurrentSlide (now : Nat) (s : Store) (sessionId : String)
    (slide : Option SlideData) : Bool × Store :=
  match storeGet s sessionId with
  | none => (false, s)
  | some session =>
      if session.expiresAt < now then (false, storeDel s sessionId)
      else (true, storeSet s sessionId { session with currentSlide := slide })

/-- `getCurrentSlide(sessionId)` (`sessionStore.ts` lines 206-217):
`null` when absent or expired (with lazy eviction), else the stored
`currentSlide` (which may itself be `null`). -/
def getCurrentSlide (now : Nat) (s : Store) (sessionId : String) :
    Option SlideData × Store :=
  match storeGet s sessionId with
  | none => (none, s)
  | some session =>
      if session.expiresAt < now then (none, storeDel s sessionId)
      else (session.currentSlide, s)

/-- The 30-minute cleanup sweep (`sessionStore.ts` lines 77-85): one run of
the `setInterval` body — delete every session with `expiresAt < now`
(JavaScript `session.expiresAt < now` on ISO strings). -/
def cleanupSweep (now : Nat) (s : Store) : Store :=
  s.filter (fun e => !(e.2.expiresAt < now : Bool))

/-! ## Route handlers -/

/-- The code points ECMAScript `String.prototype.trim()` strips:
`WhiteSpace` (TAB U+0009, VT U+000B, FF U+000C, SP U+0020, NBSP U+00A0,
ZWNBSP/BOM U+FEFF, and the Unicode space separators Zs: U+1680,
U+2000..U+200A, U+202F, U+205F, U+3000) together with `LineTerminator`
(LF U+000A, CR U+000D, LS U+2028, PS U+2029). -/
def jsWhitespaceCodes : List Nat :=
  [0x9, 0xA, 0xB, 0xC, 0xD, 0x20, 0xA0, 0x1680,
   0x2000, 0x2001, 0x2002, 0x2003, 0x2004, 0x2005, 0x2006, 0x2007,
   0x2008, 0x2009, 0x200A, 0x2028, 0x2029, 0x202F, 0x205F, 0x3000, 0xFEFF]

/-- Whether a character belongs to ECMAScript's trimmed set. -/
def isJsWhitespace (c : Char) : Bool :=
  jsWhitespaceCodes.contains c.toNat

/-- JavaScript `String.prototype.trim()`: strip leading and trailing
ECMAScript whitespace (including `\v`, `\f`, NBSP, BOM and the Unicode
space separators). Embedded executably over the character list. -/
def jsTrim (s : String) : String :=
  String.mk
    (((s.data.dropWhile isJsWhitespace).reverse.dropWhile
        isJsWhitespace).reverse)

/-- The `text` field of the feedback-submission request body: absent (or
another falsy value), present but not a string, or a string. -/
inductive TextField where
  | absent
  | nonString
  | str (s : String)
deriving DecidableEq, Repr

/-- Result of the feedback-submission `POST` handler. -/
inductive PostFeedbackResult where
  | notFound
  | badRequest
  | serverError
  | ok (feedbackId : String)
deriving DecidableEq, Repr

/-- The feedback-submission `POST` handler: validate the session via
`getSession` (404 when `null`), reject with 400 when `text` is falsy, not
a string, or empty after trimming, else `addFeedback(sessionId,
text.trim())` (500 when that returns `null`, impossible here) and return
the stored item's id. -/
def postFeedback (now : Nat) (freshId : String) (s : Store)
    (sessionId : String) (text : TextField) : PostFeedbackResult × Store :=
  match getSession now s sessionId with
  | (none, s₁) => (.notFound, s₁)
  | (some _, s₁) =>
      match text with
      | .absent => (.badRequest, s₁)
      | .nonString => (.badRequest, s₁)
      | .str t =>
          if t = "" ∨ (jsTrim t).length = 0 then (.badRequest, s₁)
          else
            match addFeedback now freshId s₁ sessionId (jsTrim t) with
            | (none, s₂) => (.serverError, s₂)
            | (some fb, s₂) => (.ok fb.id, s₂)

/-- Result of the slide `POST` handler
(`src/app/api/sessions/[sessionId]/stream/route.ts`, slide part). -/
inductive PostSlideResult where
  | notFound
  | serverError
  | ok
deriving DecidableEq, Repr

/-- The slide `POST` handler: validate the session via `getSession` (404
when `null`), then `updateCurrentSlide(sessionId, slide)` — `slide` may be
`null`, which clears the current slide — returning 500 when it reports
failure and `{success: true}` otherwise. -/
def postSlide (now : Nat) (s : Store) (sessionId : String)
    (slide : Option SlideData) : PostSlideResult × Store :=
  match getSession now s sessionId with
  | (none, s₁) => (.notFound, s₁)
  | (some _, s₁) =>
      match updateCurrentSlide now s₁ sessionId slide with
      | (false, s₂) => (.serverError, s₂)
      | (true, s₂) => (.ok, s₂)

/-- The slide `GET` handler: 404 when the session is invalid, else the
current slide (or `null`). -/
def getSlide (now : Nat) (s : Store) (sessionId : String) :
    Option (Option SlideData) × Store :=
  match getSession now s sessionId with
  | (none, s₁) => (none, s₁)
  | (some _, s₁) =>
      let r := getCurrentSlide now s₁ sessionId
      (some r.1, r.2)

/-- Iterated `publish`: a presenter pushing a sequence of snapshots through
`updateCurrentSlide`, in order. -/
def publishAll (now : Nat) (s : Store) (sid : String) :
    List (Option SlideData) → Store
  | [] => s
  | sl :: rest => publishAll now (updateCurrentSlide now s sid sl).2 sid rest

/-! ## EventStream connection model

The SSE `GET` handler opens a `ReadableStream` whose state is the session
store, the delta watermark `lastCheckTimestamp`, and whether the stream has
been closed. The server is single-threaded: a connection's history is an
interleaving of audience `addFeedback` calls and scheduled poll ticks. -/

/-- Per-connection state of an open SSE stream: the shared store, the
`lastCheckTimestamp` watermark, and whether the stream was closed. -/
structure ConnState where
  store : Store
  watermark : Nat
  closed : Bool
deriving DecidableEq, Repr

/-- One observable step in the life of an open connection: an audience
client appends feedback (at clock `now`, with a fresh id), or the 2-second
poll fires (at clock `now`). -/
inductive StreamStep where
  | append (now : Nat) (freshId text : String)
  | poll (now : Nat)
deriving DecidableEq, Repr

/-- Effect of one step on a connection for session `sid`
(`stream/route.ts` lines 114-153): a poll on a closed stream does nothing
(its interval was cleared); otherwise the poll revalidates the session
(`getSession`), closing the stream when it is gone; else it emits exactly
`getFeedback(sid, watermark)` and, when nonempty, advances the watermark
to the timestamp of the last emitted item. -/
def streamStep (sid : String) (st : ConnState) :
    StreamStep → ConnState × List Feedback
  | .append now freshId text =>
      ({ st with store := (addFeedback now freshId st.store sid text).2 }, [])
  | .poll now =>
      if st.closed then (st, [])
      else
        match getSession now st.store sid with
        | (none, s₁) => ({ store := s₁, watermark := st.watermark, closed := true }, [])
        | (some _, s₁) =>
            let r := getFeedback now s₁ sid (some st.watermark)
            ({ store := r.2
               watermark :=
                 match r.1.getLast? with
                 | none => st.watermark
                 | some f => f.timestamp
               closed := st.closed }, r.1)

/-- Run a connection over a list of steps, returning the final state and
the concatenation of all feedback events emitted to this consumer. -/
def streamRun (sid : String) (st : ConnState) :
    List StreamStep → ConnState × List Feedback
  | [] => (st, [])
  | e :: rest =>
      let p := streamStep sid st e
      let q := streamRun sid p.1 rest
      (q.1, p.2 ++ q.2)

/-- Timestamp order on feedback items. -/
def tsLE (a b : Feedback) : Prop := a.timestamp ≤ b.timestamp

instance : DecidableRel tsLE := fun a b =>
  inferInstanceAs (Decidable (a.timestamp ≤ b.timestamp))

/-- Log well-formedness for one session: timestamps non-decreasing in
append order (spec §3 FeedbackItem invariant — appends use a monotone
clock) and no duplicate items (ids are fresh). -/
def logWF (s : Store) (sid : String) : Bool :=
  match storeGet s sid with
  | none => true
  | some sd =>
      decide (sd.feedback.Pairwise tsLE) && decide sd.feedback.Nodup

/-- A step is well-clocked when an append's `now` is at least every
timestamp already in the log and its minted item is fresh (not already
present). Polls carry no obligation. -/
def validStep (sid : String) (st : ConnState) : StreamStep → Bool
  | .append now freshId text =>
      match storeGet st.store sid with
      | none => true
      | some sd =>
          decide (∀ f ∈ sd.feedback, f.timestamp ≤ now) &&
          decide (mkFeedback freshId sid text now ∉ sd.feedback)
  | .poll _ => true

/-- Every step of the trace is well-clocked in the state it executes in. -/
def validTrace (sid : String) (st : ConnState) : List StreamStep → Bool
  | [] => true
  | e :: rest => validStep sid st e && validTrace sid (streamStep sid st e).1 rest

/-! ## Stream handler entry and teardown model

`GET` in `stream/route.ts` validates the session before constructing the
`ReadableStream` (404 path), then `start(controller)` registers two
`setInterval` timers (keepalive every 15s, poll every 2s) and an abort
listener. The timer lifecycle is embedded as a state machine: a cleared
interval's callback never fires again (`clearInterval` semantics), and
`controller.enqueue` throws exactly when the stream is closed. -/

/-- Timer/controller state of one open SSE connection: whether each
`setInterval` handle is still registered and whether the controller has
been closed. -/
structure TimerState where
  keepAlive : Bool
  poll : Bool
  ctrlClosed : Bool
deriving DecidableEq, Repr

/-- Observable transport writes of the connection: the `": keepalive"`
comment or a `data:` feedback event. -/
inductive SseWrite where
  | keepaliveMsg
  | feedbackMsg
deriving DecidableEq, Repr

/-- Scheduler events that can reach the `start` closure: the keepalive
timer fires, the poll timer fires (carrying whether `getSession` still
finds the session and how many new items this poll would emit), or the
request's abort signal fires. -/
inductive ConnEvent where
  | keepaliveFire
  | pollFire (sessionLive : Bool) (newItems : Nat)
  | abortSignal
deriving DecidableEq, Repr

/-- Keepalive callback (`stream/route.ts` lines 98-107): skipped entirely
when its interval was cleared; `enqueue` on a closed controller throws,
and the catch block clears both intervals; otherwise one keepalive comment
is written. -/
def fireKeepalive (st : TimerState) : TimerState × List SseWrite :=
  if !st.keepAlive then (st, [])
  else if st.ctrlClosed then
    ({ st with keepAlive := false, poll := false }, [])
  else (st, [.keepaliveMsg])

/-- Poll callback (`stream/route.ts` lines 114-153): skipped when its
interval was cleared; when revalidation fails, clear both intervals and
close the stream; when enqueueing on a closed controller throws, the catch
block clears both intervals and closes; otherwise write one `data:` event
per new item. -/
def firePoll (sessionLive : Bool) (newItems : Nat) (st : TimerState) :
    TimerState × List SseWrite :=
  if !st.poll then (st, [])
  else if !sessionLive then
    ({ keepAlive := false, poll := false, ctrlClosed := true }, [])
  else if st.ctrlClosed && decide (newItems ≠ 0) then
    ({ keepAlive := false, poll := false, ctrlClosed := true }, [])
  else (st, List.replicate newItems .feedbackMsg)

/-- Abort listener (`stream/route.ts` lines 160-169): always runs on the
abort signal; clears both intervals and closes the stream (the
`controller.close()` error on an already-closed stream is swallowed). -/
def fireAbort (_st : TimerState) : TimerState × List SseWrite :=
  ({ keepAlive := false, poll := false, ctrlClosed := true }, [])

/-- Dispatch one scheduler event. -/
def connEventStep (st : TimerState) : ConnEvent → TimerState × List SseWrite
  | .keepaliveFire => fireKeepalive st
  | .pollFire live n => firePoll live n st
  | .abortSignal => fireAbort st

/-- Run the connection's timer machine over a list of scheduler events,
collecting every transport write. -/
def connRun (st : TimerState) : List ConnEvent → TimerState × List SseWrite
  | [] => (st, [])
  | e :: rest =>
      let p := connEventStep st e
      let q := connRun p.1 rest
      (q.1, p.2 ++ q.2)

/-- Both periodic tasks cancelled: the terminal teardown condition. -/
def tornDown (st : TimerState) : Prop := st.keepAlive = false ∧ st.poll = false

instance (st : TimerState) : Decidable (tornDown st) :=
  inferInstanceAs (Decidable (_ ∧ _))

/-- Result of the SSE `GET` handler: an immediate 404 response, or an open
stream whose initial watermark is the connect-time clock. -/
inductive StreamGETResult where
  | notFound
  | opened (conn : ConnState)
deriving DecidableEq, Repr

/-- `GET` (`stream/route.ts` lines 66-181): validate the session with
`getSession` and return 404 before any stream is constructed when it is
`null`; otherwise open a connection with `lastCheckTimestamp = now` (the
ISO string minted at connect time). -/
def streamGET (now : Nat) (s : Store) (sessionId : String) :
    StreamGETResult × Store :=
  match getSession now s sessionId with
  | (none, s₁) => (.notFound, s₁)
  | (some _, s₁) =>
      (.opened { store := s₁, watermark := now, closed := false }, s₁)

/-- Feedback events a `GET` outcome can ever emit: a 404 response owns no
stream and emits nothing; an open connection emits what `streamRun`
produces. -/
def StreamGETResult.events (sid : String) :
    StreamGETResult → List StreamStep → List Feedback
  | .notFound, _ => []
  | .opened conn, tr => (streamRun sid conn tr).2

/-! ## Store lemmas -/

/-- Keys are unique in every reachable store (the JavaScript `Map`
invariant). -/
def storeWF (s : Store) : Prop := (s.map Prod.fst).Nodup

instance (s : Store) : Decidable (storeWF s) :=
  inferInstanceAs (Decidable (List.Nodup _))

theorem storeGet_storeSet_self (s : Store) (k : String) (v : SessionData) :
    storeGet (storeSet s k v) k = some v := by
  induction s with
  | nil => simp [storeSet, storeGet]
  | cons e rest ih =>
      by_cases h : e.1 = k
      · simp [storeSet, h, storeGet]
      · simp [storeSet, h, storeGet, ih]

theorem storeGet_storeSet_ne (s : Store) (k k' : String) (v : SessionData)
    (h : k' ≠ k) : storeGet (storeSet s k v) k' = storeGet s k' := by
  have hk : ¬ k = k' := fun hh => h hh.symm
  induction s with
  | nil => simp [storeSet, storeGet, hk]
  | cons e rest ih =>
      obtain ⟨k1, v1⟩ := e
      by_cases he : k1 = k
      · have h1 : storeSet ((k1, v1) :: rest) k v = (k, v) :: rest := by
          simp [storeSet, he]
        have h2 : ¬ k1 = k' := by rw [he]; exact hk
        rw [h1]
        simp only [storeGet, if_neg hk, if_neg h2]
      · have h1 : storeSet ((k1, v1) :: rest) k v =
            (k1, v1) :: storeSet rest k v := by
          simp [storeSet, he]
        rw [h1]
        by_cases he' : k1 = k'
        · simp only [storeGet, if_pos he']
        · simp only [storeGet, if_neg he', ih]

theorem storeGet_eq_none_of_forall (s : Store) (k : String)
    (h : ∀ e ∈ s, e.1 ≠ k) : storeGet s k = none := by
  induction s with
  | nil => rfl
  | cons e rest ih =>
      have h1 : e.1 ≠ k := h e (by simp)
      simp only [storeGet, if_neg h1]
      exact ih fun x hx => h x (by simp [hx])

theorem mem_of_storeGet_eq_some {s : Store} {k : String} {v : SessionData}
    (h : storeGet s k = some v) : (k, v) ∈ s := by
  induction s with
  | nil => simp [storeGet] at h
  | cons e rest ih =>
      by_cases he : e.1 = k
      · simp only [storeGet, if_pos he] at h
        obtain ⟨k1, v1⟩ := e
        simp only at he
        subst he
        cases h
        simp
      · simp only [storeGet, if_neg he] at h
        simp [ih h]

theorem storeGet_storeDel_self (s : Store) (k : String) :
    storeGet (storeDel s k) k = none := by
  apply storeGet_eq_none_of_forall
  intro e he
  have := List.of_mem_filter he
  simpa using this

theorem storeGet_storeDel_ne (s : Store) (k k' : String) (h : k' ≠ k) :
    storeGet (storeDel s k) k' = storeGet s k' := by
  induction s with
  | nil => rfl
  | cons e rest ih =>
      by_cases he : e.1 = k
      · have : storeDel (e :: rest) k = storeDel rest k := by
          simp [storeDel, List.filter, he]
        rw [this, ih]
        have he' : e.1 ≠ k' := by
          rw [he]; exact fun hh => h hh.symm
        simp [storeGet, he']
      · have : storeDel (e :: rest) k = e :: storeDel rest k := by
          simp [storeDel, List.filter, he]
        rw [this]
        by_cases he' : e.1 = k'
        · simp [storeGet, he']
        · simp [storeGet, he', ih]

/-! ## Equation lemmas for the session operations -/

theorem getSession_absent {s : Store} {sid : String} (now : Nat)
    (h : storeGet s sid = none) : getSession now s sid = (none, s) := by
  simp [getSession, h]

theorem getSession_expired {s : Store} {sid : String} {sd : SessionData}
    (now : Nat) (h : storeGet s sid = some sd) (hx : sd.expiresAt < now) :
    getSession now s sid = (none, storeDel s sid) := by
  simp [getSession, h, hx]

theorem getSession_live {s : Store} {sid : String} {sd : SessionData}
    (now : Nat) (h : storeGet s sid = some sd) (hx : ¬ sd.expiresAt < now) :
    getSession now s sid = (some sd.toSession, s) := by
  simp [getSession, h, hx]

theorem getFeedback_live {s : Store} {sid : String} {sd : SessionData}
    (now : Nat) (w : Nat) (h : storeGet s sid = some sd)
    (hx : ¬ sd.expiresAt < now) :
    getFeedback now s sid (some w) =
      (sd.feedback.filter (fun f => decide (w < f.timestamp)), s) := by
  simp [getFeedback, h, hx]

theorem addFeedback_live {s : Store} {sid : String} {sd : SessionData}
    (now : Nat) (freshId text : String) (h : storeGet s sid = some sd)
    (hx : ¬ sd.expiresAt < now) :
    addFeedback now freshId s sid text =
      (some (mkFeedback freshId sid text now),
        storeSet s sid
          { sd with feedback := sd.feedback ++ [mkFeedback freshId sid text now] }) := by
  simp [addFeedback, h, hx]

/-! ## Ordered-list lemmas -/

theorem last_max_of_sorted :
    ∀ {l : List Feedback} {g : Feedback}, l.Pairwise tsLE →
      l.getLast? = some g → ∀ f ∈ l, f.timestamp ≤ g.timestamp := by
  intro l
  induction l with
  | nil => intro g _ hg; simp at hg
  | cons a t ih =>
      intro g hp hg f hf
      rcases List.pairwise_cons.mp hp with ⟨ha, ht⟩
      cases t with
      | nil =>
          simp at hg hf
          subst hg; subst hf
          exact le_rfl
      | cons b u =>
          have hg' : (b :: u).getLast? = some g := by
            simpa [List.getLast?] using hg
          have hgmem : g ∈ b :: u := by
            rcases List.mem_getLast?_eq_getLast hg' with ⟨hne, heq⟩
            rw [heq]
            exact List.getLast_mem hne
          rcases List.mem_cons.mp hf with hf | hf
          · rw [hf]
            exact ha g hgmem
          · exact ih ht hg' f hf

theorem sorted_filter_split (w : Nat) :
    ∀ {l : List Feedback}, l.Pairwise tsLE →
      (l.filter fun f => decide (f.timestamp ≤ w)) ++
        (l.filter fun f => decide (w < f.timestamp)) = l := by
  intro l
  induction l with
  | nil => intro _; rfl
  | cons a t ih =>
      intro hp
      rcases List.pairwise_cons.mp hp with ⟨ha, ht⟩
      by_cases hle : a.timestamp ≤ w
      · have h2 : ¬ w < a.timestamp := not_lt.mpr hle
        simp only [List.filter_cons, decide_eq_true_eq]
        rw [if_pos hle, if_neg h2]
        simp [ih ht]
      · have hgt : w < a.timestamp := not_le.mp hle
        have hall : ∀ f ∈ t, w < f.timestamp := fun f hf =>
          lt_of_lt_of_le hgt (ha f hf)
        have h1 : t.filter (fun f => decide (f.timestamp ≤ w)) = [] := by
          apply List.filter_eq_nil_iff.mpr
          intro f hf
          simp [not_le.mpr (hall f hf)]
        have h2 : t.filter (fun f => decide (w < f.timestamp)) = t := by
          apply List.filter_eq_self.mpr
          intro f hf
          simp [hall f hf]
        simp only [List.filter_cons, decide_eq_true_eq]
        rw [if_neg hle, if_pos hgt, h1, h2]
        rfl

theorem mem_of_getLast?_eq {α : Type} {l : List α} {g : α}
    (h : l.getLast? = some g) : g ∈ l := by
  rcases List.mem_getLast?_eq_getLast h with ⟨hne, heq⟩
  rw [heq]
  exact List.getLast_mem hne

theorem sublist_concat_filter (w : Nat) {a l : List Feedback}
    (hs : l.Pairwise tsLE) (hsub : List.Sublist a l)
    (ha : ∀ f ∈ a, f.timestamp ≤ w) :
    List.Sublist (a ++ l.filter (fun f => decide (w < f.timestamp))) l := by
  have h1 : a.filter (fun f => decide (f.timestamp ≤ w)) = a := by
    apply List.filter_eq_self.mpr
    intro f hf
    simp [ha f hf]
  have h2 : List.Sublist a (l.filter (fun f => decide (f.timestamp ≤ w))) := by
    have h4 := hsub.filter (fun f => decide (f.timestamp ≤ w))
    rwa [h1] at h4
  have h3 := h2.append
    (List.Sublist.refl (l.filter (fun f => decide (w < f.timestamp))))
  rw [sorted_filter_split w hs] at h3
  exact h3

/-! ## Equation lemmas for `streamStep` -/

theorem streamStep_append (sid : String) (st : ConnState)
    (now : Nat) (fid text : String) :
    streamStep sid st (.append now fid text) =
      ({ st with store := (addFeedback now fid st.store sid text).2 }, []) := rfl

theorem streamStep_poll_closed {sid : String} {st : ConnState} (now : Nat)
    (h : st.closed = true) : streamStep sid st (.poll now) = (st, []) := by
  simp [streamStep, h]

theorem streamStep_poll_absent {sid : String} {st : ConnState} (now : Nat)
    (hc : st.closed = false) (h : storeGet st.store sid = none) :
    streamStep sid st (.poll now) =
      ({ store := st.store, watermark := st.watermark, closed := true }, []) := by
  simp [streamStep, hc, getSession_absent now h]

theorem streamStep_poll_expired {sid : String} {st : ConnState}
    {sd : SessionData} (now : Nat) (hc : st.closed = false)
    (h : storeGet st.store sid = some sd) (hx : sd.expiresAt < now) :
    streamStep sid st (.poll now) =
      ({ store := storeDel st.store sid, watermark := st.watermark,
         closed := true }, []) := by
  simp [streamStep, hc, getSession_expired now h hx]

theorem streamStep_poll_live {sid : String} {st : ConnState}
    {sd : SessionData} (now : Nat) (hc : st.closed = false)
    (h : storeGet st.store sid = some sd) (hx : ¬ sd.expiresAt < now) :
    streamStep sid st (.poll now) =
      ({ store := st.store
         watermark :=
           match (sd.feedback.filter
               (fun f => decide (st.watermark < f.timestamp))).getLast? with
           | none => st.watermark
           | some f => f.timestamp
         closed := false },
       sd.feedback.filter (fun f => decide (st.watermark < f.timestamp))) := by
  simp [streamStep, hc, getSession_live now h hx,
    getFeedback_live now st.watermark h hx]

/-- The watermark computed from a delta poll's result never moves
backwards: when items were emitted, the last one's timestamp exceeds the
old watermark (every filtered item does). -/
theorem filter_last_ge (w : Nat) (l : List Feedback) :
    w ≤ match (l.filter (fun f => decide (w < f.timestamp))).getLast? with
        | none => w
        | some f => f.timestamp := by
  cases hL : (l.filter (fun f => decide (w < f.timestamp))).getLast? with
  | none => exact le_rfl
  | some g =>
      have hg_mem : g ∈ l.filter (fun f => decide (w < f.timestamp)) :=
        mem_of_getLast?_eq hL
      have := (List.mem_filter.mp hg_mem).2
      simp only [decide_eq_true_eq] at this
      exact le_of_lt this

/-! ## The per-connection delivery invariant -/

/-- Invariant of an open connection for session `sid` that started with
watermark `w₀` and has emitted `emitted` so far: emissions are sorted by
timestamp, duplicate-free, bounded by the current watermark, strictly
above the starting watermark; the watermark never went below `w₀`; and as
long as the session exists its log is sorted and duplicate-free and the
emissions are a sublist of it. -/
structure StreamInv (sid : String) (w₀ : Nat) (st : ConnState)
    (emitted : List Feedback) : Prop where
  emitSorted : emitted.Pairwise tsLE
  emitNodup : emitted.Nodup
  emit_le_w : ∀ f ∈ emitted, f.timestamp ≤ st.watermark
  emit_gt_w0 : ∀ f ∈ emitted, w₀ < f.timestamp
  w_lb : w₀ ≤ st.watermark
  logOK : ∀ sd, storeGet st.store sid = some sd →
    sd.feedback.Pairwise tsLE ∧ sd.feedback.Nodup ∧
      List.Sublist emitted sd.feedback

theorem streamInv_step {sid : String} {w₀ : Nat} {st : ConnState}
    {emitted : List Feedback} {e : StreamStep}
    (hv : validStep sid st e = true) (h : StreamInv sid w₀ st emitted) :
    StreamInv sid w₀ (streamStep sid st e).1
      (emitted ++ (streamStep sid st e).2) := by
  cases e with
  | append now fid text =>
      rw [streamStep_append]
      simp only [List.append_nil]
      refine ⟨h.emitSorted, h.emitNodup, h.emit_le_w, h.emit_gt_w0, h.w_lb, ?_⟩
      intro sd' hsd'
      cases hg : storeGet st.store sid with
      | none =>
          have hkeep : (addFeedback now fid st.store sid text).2 = st.store := by
            simp [addFeedback, hg]
          rw [hkeep, hg] at hsd'
          cases hsd'
      | some sd =>
          by_cases hx : sd.expiresAt < now
          · have hkeep : (addFeedback now fid st.store sid text).2 =
                storeDel st.store sid := by
              simp [addFeedback, hg, hx]
            rw [hkeep, storeGet_storeDel_self] at hsd'
            cases hsd'
          · have hstep : (addFeedback now fid st.store sid text).2 =
                storeSet st.store sid
                  { sd with feedback :=
                      sd.feedback ++ [mkFeedback fid sid text now] } := by
              rw [addFeedback_live now fid text hg hx]
            rw [hstep, storeGet_storeSet_self] at hsd'
            cases hsd'
            have hv' := hv
            simp only [validStep, hg, Bool.and_eq_true, decide_eq_true_eq] at hv'
            obtain ⟨hasc, hfresh⟩ := hv'
            obtain ⟨hls, hln, hsub⟩ := h.logOK sd hg
            refine ⟨?_, ?_, ?_⟩
            · rw [List.pairwise_append]
              refine ⟨hls, List.pairwise_singleton _ _, ?_⟩
              intro a hax b hbx
              simp only [List.mem_singleton] at hbx
              subst hbx
              simpa [tsLE, mkFeedback] using hasc a hax
            · rw [List.nodup_append]
              refine ⟨hln, List.nodup_singleton _, ?_⟩
              intro a hax hbx
              simp only [List.mem_singleton] at hbx
              subst hbx
              exact hfresh hax
            · exact hsub.trans (List.sublist_append_left _ _)
  | poll now =>
      cases hcl : st.closed with
      | true =>
          rw [streamStep_poll_closed now hcl]
          simpa using h
      | false =>
          cases hg : storeGet st.store sid with
          | none =>
              rw [streamStep_poll_absent now hcl hg]
              simp only [List.append_nil]
              exact ⟨h.emitSorted, h.emitNodup, h.emit_le_w, h.emit_gt_w0,
                h.w_lb, fun sd hsd => h.logOK sd hsd⟩
          | some sd =>
              by_cases hx : sd.expiresAt < now
              · rw [streamStep_poll_expired now hcl hg hx]
                simp only [List.append_nil]
                refine ⟨h.emitSorted, h.emitNodup, h.emit_le_w, h.emit_gt_w0,
                  h.w_lb, ?_⟩
                intro sd' hsd'
                rw [storeGet_storeDel_self] at hsd'
                cases hsd'
              · rw [streamStep_poll_live now hcl hg hx]
                obtain ⟨hls, hln, hsub⟩ := h.logOK sd hg
                have hitems_sub : List.Sublist
                    (sd.feedback.filter
                      (fun f => decide (st.watermark < f.timestamp)))
                    sd.feedback := List.filter_sublist _
                have hitems_sorted :
                    (sd.feedback.filter
                      (fun f => decide (st.watermark < f.timestamp))).Pairwise
                        tsLE :=
                  List.Pairwise.sublist hitems_sub hls
                have hitems_nodup :
                    (sd.feedback.filter
                      (fun f => decide (st.watermark < f.timestamp))).Nodup :=
                  List.Nodup.sublist hitems_sub hln
                have hitems_gt : ∀ f ∈ sd.feedback.filter
                    (fun f => decide (st.watermark < f.timestamp)),
                    st.watermark < f.timestamp := by
                  intro f hf
                  have := (List.mem_filter.mp hf).2
                  simpa using this
                have hw_le := filter_last_ge st.watermark sd.feedback
                have hitems_le : ∀ f ∈ sd.feedback.filter
                    (fun f => decide (st.watermark < f.timestamp)),
                    f.timestamp ≤
                      match (sd.feedback.filter
                        (fun f => decide (st.watermark < f.timestamp))).getLast? with
                      | none => st.watermark
                      | some g => g.timestamp := by
                  cases hL : (sd.feedback.filter
                      (fun f => decide (st.watermark < f.timestamp))).getLast? with
                  | none =>
                      intro f hf
                      rw [List.getLast?_eq_none_iff.mp hL] at hf
                      cases hf
                  | some g =>
                      intro f hf
                      exact last_max_of_sorted hitems_sorted hL f hf
                refine ⟨?_, ?_, ?_, ?_, ?_, ?_⟩
                · rw [List.pairwise_append]
                  refine ⟨h.emitSorted, hitems_sorted, ?_⟩
                  intro a ha b hb
                  exact le_of_lt
                    (lt_of_le_of_lt (h.emit_le_w a ha) (hitems_gt b hb))
                · rw [List.nodup_append]
                  refine ⟨h.emitNodup, hitems_nodup, ?_⟩
                  intro a ha hb
                  exact absurd (hitems_gt a hb)
                    (not_lt.mpr (h.emit_le_w a ha))
                · intro f hf
                  rcases List.mem_append.mp hf with hf | hf
                  · exact le_trans (h.emit_le_w f hf) hw_le
                  · exact hitems_le f hf
                · intro f hf
                  rcases List.mem_append.mp hf with hf | hf
                  · exact h.emit_gt_w0 f hf
                  · exact lt_of_le_of_lt h.w_lb (hitems_gt f hf)
                · exact le_trans h.w_lb hw_le
                · intro sd' hsd'
                  rw [hg] at hsd'
                  cases hsd'
                  exact ⟨hls, hln,
                    sublist_concat_filter st.watermark hls hsub h.emit_le_w⟩

theorem streamInv_run {sid : String} {w₀ : Nat} :
    ∀ {tr : List StreamStep} {st : ConnState} {emitted : List Feedback},
      validTrace sid st tr = true → StreamInv sid w₀ st emitted →
      StreamInv sid w₀ (streamRun sid st tr).1
        (emitted ++ (streamRun sid st tr).2) := by
  intro tr
  induction tr with
  | nil =>
      intro st emitted _ h
      simpa [streamRun] using h
  | cons e rest ih =>
      intro st emitted hv h
      simp only [validTrace, Bool.and_eq_true] at hv
      obtain ⟨hv1, hv2⟩ := hv
      have h1 := streamInv_step hv1 h
      have h2 := ih hv2 h1
      simp only [streamRun]
      simpa [List.append_assoc] using h2

/-! ## Unconditional watermark lemmas -/

theorem streamStep_watermark_le (sid : String) (st : ConnState)
    (e : StreamStep) : st.watermark ≤ (streamStep sid st e).1.watermark := by
  cases e with
  | append now fid text =>
      rw [streamStep_append]
  | poll now =>
      cases hcl : st.closed with
      | true => rw [streamStep_poll_closed now hcl]
      | false =>
          cases hg : storeGet st.store sid with
          | none => rw [streamStep_poll_absent now hcl hg]
          | some sd =>
              by_cases hx : sd.expiresAt < now
              · rw [streamStep_poll_expired now hcl hg hx]
              · rw [streamStep_poll_live now hcl hg hx]
                exact filter_last_ge st.watermark sd.feedback

theorem streamStep_out_gt (sid : String) (st : ConnState) (e : StreamStep) :
    ∀ f ∈ (streamStep sid st e).2, st.watermark < f.timestamp := by
  cases e with
  | append now fid text =>
      rw [streamStep_append]
      intro f hf
      cases hf
  | poll now =>
      cases hcl : st.closed with
      | true =>
          rw [streamStep_poll_closed now hcl]
          intro f hf
          cases hf
      | false =>
          cases hg : storeGet st.store sid with
          | none =>
              rw [streamStep_poll_absent now hcl hg]
              intro f hf
              cases hf
          | some sd =>
              by_cases hx : sd.expiresAt < now
              · rw [streamStep_poll_expired now hcl hg hx]
                intro f hf
                cases hf
              · rw [streamStep_poll_live now hcl hg hx]
                intro f hf
                have := (List.mem_filter.mp hf).2
                simpa using this

theorem streamRun_watermark_le (sid : String) :
    ∀ (tr : List StreamStep) (st : ConnState),
      st.watermark ≤ (streamRun sid st tr).1.watermark := by
  intro tr
  induction tr with
  | nil => intro st; exact le_rfl
  | cons e rest ih =>
      intro st
      simp only [streamRun]
      exact le_trans (streamStep_watermark_le sid st e)
        (ih (streamStep sid st e).1)

theorem streamRun_out_gt (sid : String) :
    ∀ (tr : List StreamStep) (st : ConnState),
      ∀ f ∈ (streamRun sid st tr).2, st.watermark < f.timestamp := by
  intro tr
  induction tr with
  | nil =>
      intro st f hf
      cases hf
  | cons e rest ih =>
      intro st f hf
      simp only [streamRun, List.mem_append] at hf
      rcases hf with hf | hf
      · exact streamStep_out_gt sid st e f hf
      · exact lt_of_le_of_lt (streamStep_watermark_le sid st e)
          (ih (streamStep sid st e).1 f hf)

/-! ## Further helper lemmas for the claims -/

theorem string_eq_empty_of_length (s : String) (h : s.length = 0) :
    s = "" := by
  cases s with
  | mk data =>
      cases data with
      | nil => rfl
      | cons a t => simp [String.length] at h

theorem storeSet_storeSet (s : Store) (k : String) (v v' : SessionData) :
    storeSet (storeSet s k v) k v' = storeSet s k v' := by
  induction s with
  | nil => simp [storeSet]
  | cons e rest ih =>
      obtain ⟨k1, v1⟩ := e
      by_cases he : k1 = k
      · simp [storeSet, he]
      · simp [storeSet, he, ih]

theorem updateCurrentSlide_live {s : Store} {sid : String} {sd : SessionData}
    (now : Nat) (slide : Option SlideData) (h : storeGet s sid = some sd)
    (hx : ¬ sd.expiresAt < now) :
    updateCurrentSlide now s sid slide =
      (true, storeSet s sid { sd with currentSlide := slide }) := by
  simp [updateCurrentSlide, h, hx]

theorem getCurrentSlide_live {s : Store} {sid : String} {sd : SessionData}
    (now : Nat) (h : storeGet s sid = some sd) (hx : ¬ sd.expiresAt < now) :
    getCurrentSlide now s sid = (sd.currentSlide, s) := by
  simp [getCurrentSlide, h, hx]

theorem publishAll_getLast (now : Nat) (sid : String) :
    ∀ (sls : List (Option SlideData)) (s : Store) (sd : SessionData)
      (g : Option SlideData), storeGet s sid = some sd →
      ¬ sd.expiresAt < now → sls.getLast? = some g →
      (getCurrentSlide now (publishAll now s sid sls) sid).1 = g := by
  intro sls
  induction sls with
  | nil =>
      intro s sd g _ _ hg
      cases hg
  | cons sl rest ih =>
      intro s sd g hget hx hg
      have hstep := updateCurrentSlide_live now sl hget hx
      have hget' : storeGet (updateCurrentSlide now s sid sl).2 sid =
          some { sd with currentSlide := sl } := by
        rw [hstep]
        exact storeGet_storeSet_self s sid _
      have hx' : ¬ ({ sd with currentSlide := sl } : SessionData).expiresAt < now := hx
      cases rest with
      | nil =>
          simp only [List.getLast?_singleton, Option.some.injEq] at hg
          subst hg
          show (getCurrentSlide now
            (publishAll now (updateCurrentSlide now s sid sl).2 sid []) sid).1 = sl
          rw [show publishAll now (updateCurrentSlide now s sid sl).2 sid [] =
            (updateCurrentSlide now s sid sl).2 from rfl]
          rw [getCurrentSlide_live now hget' hx']
      | cons b u =>
          have hg' : (b :: u).getLast? = some g := by
            simpa [List.getLast?] using hg
          exact ih (updateCurrentSlide now s sid sl).2 _ g hget' hx' hg'

theorem storeGet_cleanupSweep (now : Nat) :
    ∀ (s : Store), storeWF s → ∀ sid : String,
      storeGet (cleanupSweep now s) sid =
        match storeGet s sid with
        | none => none
        | some sd => if sd.expiresAt < now then none else some sd := by
  intro s
  induction s with
  | nil => intro _ sid; rfl
  | cons e rest ih =>
      intro hwf sid
      obtain ⟨k, v⟩ := e
      have hwf' : storeWF rest := by
        have := hwf
        simp only [storeWF, List.map_cons, List.nodup_cons] at this
        exact this.2
      have hknotin : k ∉ rest.map Prod.fst := by
        have := hwf
        simp only [storeWF, List.map_cons, List.nodup_cons] at this
        exact this.1
      by_cases hx : v.expiresAt < now
      · have hdrop : cleanupSweep now ((k, v) :: rest) = cleanupSweep now rest := by
          simp [cleanupSweep, List.filter_cons, hx]
        rw [hdrop]
        by_cases hk : k = sid
        · subst hk
          have hnone : storeGet (cleanupSweep now rest) k = none := by
            apply storeGet_eq_none_of_forall
            intro x hx2
            have hmem : x ∈ rest := List.mem_of_mem_filter hx2
            intro hxk
            exact hknotin (hxk ▸ List.mem_map_of_mem Prod.fst hmem)
          rw [hnone]
          simp [storeGet, hx]
        · rw [ih hwf' sid]
          simp [storeGet, hk]
      · have hkeep : cleanupSweep now ((k, v) :: rest) =
            (k, v) :: cleanupSweep now rest := by
          simp [cleanupSweep, List.filter_cons, hx]
        rw [hkeep]
        by_cases hk : k = sid
        · simp [storeGet, hk, hx]
        · simp only [storeGet, if_neg hk]
          exact ih hwf' sid

/-! ## Claims -/

/-- Claim C1 counterexample: at the boundary instant `now = expiresAt`
(so `now ≥ expiresAt`) `getSession` still returns the session — the code's
expiry test is the strict `session.expiresAt < now`, so a session whose
TTL has exactly elapsed is neither hidden nor evicted. -/
theorem claim_c1_cex :
    (5 : Nat) ≥ 5 ∧
    (getSession 5 [("s", ⟨"s", 0, 5, [], none⟩)] "s").1 =
      some ⟨"s", 0, 5⟩ := by
  exact ⟨by decide, by decide⟩

/-- Claim C1 (amended): `getSession` returns NotFound for an absent id;
for a present session it returns the session exactly when
`now ≤ expiresAt`, and when `now > expiresAt` it returns NotFound and, as
a side effect, evicts the session. -/
theorem claim_c1_amended (now : Nat) (s : Store) (sid : String) :
    (storeGet s sid = none → getSession now s sid = (none, s)) ∧
    (∀ sd, storeGet s sid = some sd →
      (now ≤ sd.expiresAt → getSession now s sid = (some sd.toSession, s)) ∧
      (sd.expiresAt < now →
        getSession now s sid = (none, storeDel s sid) ∧
        storeGet (storeDel s sid) sid = none)) := by
  refine ⟨fun h => getSession_absent now h, fun sd h => ⟨?_, ?_⟩⟩
  · intro hle
    exact getSession_live now h (not_lt.mpr hle)
  · intro hlt
    exact ⟨getSession_expired now h hlt, storeGet_storeDel_self s sid⟩

/-- Witness for `claim_c1_amended` at a concrete store: a live lookup at
`now = 5` (the boundary) returns the session unchanged, and an expired
lookup at `now = 9` returns NotFound and evicts. -/
theorem claim_c1_witness :
    getSession 5 [("s", ⟨"s", 0, 5, [], none⟩)] "s" =
      (some ⟨"s", 0, 5⟩, [("s", ⟨"s", 0, 5, [], none⟩)]) ∧
    getSession 9 [("s", ⟨"s", 0, 5, [], none⟩)] "s" = (none, []) := by
  have h1 := ((claim_c1_amended 5 [("s", ⟨"s", 0, 5, [], none⟩)] "s").2
    ⟨"s", 0, 5, [], none⟩ (by decide)).1 (by decide)
  have h2 := ((claim_c1_amended 9 [("s", ⟨"s", 0, 5, [], none⟩)] "s").2
    ⟨"s", 0, 5, [], none⟩ (by decide)).2 (by decide)
  exact ⟨h1, h2.1.trans (by decide)⟩

/-- Claim C3 counterexample: a session at the boundary instant
`now = expiresAt` is expired in the spec's sense (`live iff
now < expiresAt`), yet `getFeedback` returns its log rather than the
empty sequence — the code's expiry test is strict. -/
theorem claim_c3_cex :
    (5 : Nat) ≥ 5 ∧
    (getFeedback 5 [("s", ⟨"s", 0, 5, [⟨"f1", "s", "hi", 1⟩], none⟩)]
      "s" none).1 = [⟨"f1", "s", "hi", 1⟩] := by
  exact ⟨by decide, by decide⟩

/-- Claim C3 (amended): for an absent session `getFeedback` returns the
empty sequence, and likewise (with eviction) when `expiresAt < now`; for a
surviving session, omitting `since` returns the whole log in append
order, and `since = t` returns exactly the items with `timestamp > t` —
the filtered log, a sublist of it (append order, no gaps), with
membership exactly characterized and multiplicities preserved (no
duplicates introduced or dropped). -/
theorem claim_c3_amended (now : Nat) (s : Store) (sid : String) :
    (storeGet s sid = none →
      ∀ since, getFeedback now s sid since = ([], s)) ∧
    (∀ sd, storeGet s sid = some sd → sd.expiresAt < now →
      ∀ since, getFeedback now s sid since = ([], storeDel s sid)) ∧
    (∀ sd, storeGet s sid = some sd → ¬ sd.expiresAt < now →
      getFeedback now s sid none = (sd.feedback, s) ∧
      ∀ t : Nat,
        (getFeedback now s sid (some t)).1 =
          sd.feedback.filter (fun f => decide (t < f.timestamp)) ∧
        List.Sublist (getFeedback now s sid (some t)).1 sd.feedback ∧
        (∀ f : Feedback, f ∈ (getFeedback now s sid (some t)).1 ↔
          f ∈ sd.feedback ∧ t < f.timestamp) ∧
        (∀ f : Feedback, t < f.timestamp →
          (getFeedback now s sid (some t)).1.count f = sd.feedback.count f) ∧
        (∀ f : Feedback, ¬ t < f.timestamp →
          (getFeedback now s sid (some t)).1.count f = 0)) := by
  refine ⟨?_, ?_, ?_⟩
  · intro h since
    cases since <;> simp [getFeedback, h]
  · intro sd h hx since
    cases since <;> simp [getFeedback, h, hx]
  · intro sd h hx
    refine ⟨by simp [getFeedback, h, hx], ?_⟩
    intro t
    have heq : (getFeedback now s sid (some t)).1 =
        sd.feedback.filter (fun f => decide (t < f.timestamp)) := by
      simp [getFeedback, h, hx]
    refine ⟨heq, ?_, ?_, ?_, ?_⟩
    · rw [heq]
      exact List.filter_sublist _
    · intro f
      rw [heq]
      simp [List.mem_filter]
    · intro f hft
      rw [heq]
      exact List.count_filter (by simpa using hft)
    · intro f hft
      rw [heq]
      apply List.count_eq_zero.mpr
      intro hmem
      exact hft (by simpa using (List.mem_filter.mp hmem).2)

/-- Witness for `claim_c3_amended`: on a concrete two-item log,
`since = 1` returns exactly the later item, and an absent id returns
the empty sequence. -/
theorem claim_c3_witness :
    (getFeedback 2
      [("s", ⟨"s", 0, 100, [⟨"f1", "s", "a", 1⟩, ⟨"f2", "s", "b", 3⟩], none⟩)]
      "s" (some 1)).1 = [⟨"f2", "s", "b", 3⟩] ∧
    getFeedback 2 [] "s" (some 1) = ([], []) := by
  have h := (claim_c3_amended 2
    [("s", ⟨"s", 0, 100, [⟨"f1", "s", "a", 1⟩, ⟨"f2", "s", "b", 3⟩], none⟩)]
    "s").2.2 ⟨"s", 0, 100, [⟨"f1", "s", "a", 1⟩, ⟨"f2", "s", "b", 3⟩], none⟩
    (by decide) (by decide)
  have h0 := (claim_c3_amended 2 [] "s").1 (by decide) (some 1)
  exact ⟨((h.2 1).1).trans (by decide), h0⟩

/-- Claim C7 counterexample: the sweep's test is the strict
`expiresAt < now`, so a session with `expiresAt = now` (which the claim
says is removed, `expiresAt ≤ now`) survives the sweep. -/
theorem claim_c7_cex :
    (5 : Nat) ≤ 5 ∧
    storeGet (cleanupSweep 5 [("s", ⟨"s", 0, 5, [], none⟩)]) "s" =
      some ⟨"s", 0, 5, [], none⟩ := by
  exact ⟨by decide, by decide⟩

/-- Claim C7 (amended): one sweep run removes exactly the sessions with
`expiresAt < now` and leaves every other session unchanged; removal takes
the session's feedback log and slide state with it (they live inside the
session record). -/
theorem claim_c7_amended (now : Nat) (s : Store) (h : storeWF s)
    (sid : String) :
    (storeGet (cleanupSweep now s) sid =
      match storeGet s sid with
      | none => none
      | some sd => if sd.expiresAt < now then none else some sd) ∧
    (∀ sd, storeGet s sid = some sd → sd.expiresAt < now →
      (getFeedback now (cleanupSweep now s) sid none).1 = [] ∧
      (getCurrentSlide now (cleanupSweep now s) sid).1 = none ∧
      (getSession now (cleanupSweep now s) sid).1 = none) := by
  have hmain := storeGet_cleanupSweep now s h sid
  refine ⟨hmain, ?_⟩
  intro sd hget hx
  have hnone : storeGet (cleanupSweep now s) sid = none := by
    rw [hmain, hget]
    simp [hx]
  exact ⟨by simp [getFeedback, hnone], by simp [getCurrentSlide, hnone],
    by simp [getSession, hnone]⟩

/-- Witness for `claim_c7_amended`: sweeping a concrete store at `now = 10`
removes the session that expired at 5 and keeps the one expiring at 20. -/
theorem claim_c7_witness :
    storeGet (cleanupSweep 10
      [("a", ⟨"a", 0, 5, [], none⟩), ("b", ⟨"b", 0, 20, [], none⟩)]) "a" =
      none ∧
    storeGet (cleanupSweep 10
      [("a", ⟨"a", 0, 5, [], none⟩), ("b", ⟨"b", 0, 20, [], none⟩)]) "b" =
      some ⟨"b", 0, 20, [], none⟩ := by
  have h1 := (claim_c7_amended 10
    [("a", ⟨"a", 0, 5, [], none⟩), ("b", ⟨"b", 0, 20, [], none⟩)]
    (by decide) "a").1
  have h2 := (claim_c7_amended 10
    [("a", ⟨"a", 0, 5, [], none⟩), ("b", ⟨"b", 0, 20, [], none⟩)]
    (by decide) "b").1
  exact ⟨h1.trans (by decide), h2.trans (by decide)⟩

/-- Claim C5: for a live session the feedback-submission handler rejects
an absent or non-string `text`, and any text that is empty after
trimming, with a 400 and leaves the store (hence the session's feedback
log) unchanged; for text non-empty after trimming it appends exactly one
item with the fresh id and `timestamp = now` to the session's log and
returns its id; and in general a submission succeeds only when the text
was a string that is non-empty after trimming. -/
theorem claim_c5 (now : Nat) (freshId : String) (s : Store) (sid : String)
    (sd : SessionData) (hget : storeGet s sid = some sd)
    (hlive : ¬ sd.expiresAt < now) :
    (postFeedback now freshId s sid .absent = (.badRequest, s)) ∧
    (postFeedback now freshId s sid .nonString = (.badRequest, s)) ∧
    (∀ txt : String, jsTrim txt = "" →
      postFeedback now freshId s sid (.str txt) = (.badRequest, s)) ∧
    (∀ txt : String, jsTrim txt ≠ "" →
      postFeedback now freshId s sid (.str txt) =
        (.ok freshId,
         storeSet s sid { sd with feedback :=
           sd.feedback ++ [mkFeedback freshId sid (jsTrim txt) now] })) ∧
    (∀ (s' : Store) (t : TextField) (fid : String),
      (postFeedback now freshId s' sid t).1 = .ok fid →
      ∃ txt, t = .str txt ∧ jsTrim txt ≠ "") := by
  have hsess : getSession now s sid = (some sd.toSession, s) :=
    getSession_live now hget hlive
  refine ⟨?_, ?_, ?_, ?_, ?_⟩
  · simp [postFeedback, hsess]
  · simp [postFeedback, hsess]
  · intro txt htrim
    have hcond : txt = "" ∨ (jsTrim txt).length = 0 := by
      right
      rw [htrim]
      rfl
    simp [postFeedback, hsess, hcond]
  · intro txt htrim
    have h1 : ¬ txt = "" := by
      intro h
      apply htrim
      rw [h]
      decide
    have h2 : ¬ (jsTrim txt).length = 0 := fun h =>
      htrim (string_eq_empty_of_length _ h)
    have hcond : ¬ (txt = "" ∨ (jsTrim txt).length = 0) := by
      rintro (h | h)
      · exact h1 h
      · exact h2 h
    have haf := addFeedback_live now freshId (jsTrim txt) hget hlive
    simp [postFeedback, hsess, hcond, haf, mkFeedback]
  · intro s' t fid h
    cases t with
    | absent =>
        exfalso
        unfold postFeedback at h
        rcases hG : getSession now s' sid with ⟨o, s₁⟩
        rw [hG] at h
        cases o <;> simp at h
    | nonString =>
        exfalso
        unfold postFeedback at h
        rcases hG : getSession now s' sid with ⟨o, s₁⟩
        rw [hG] at h
        cases o <;> simp at h
    | str txt =>
        refine ⟨txt, rfl, ?_⟩
        intro htrim
        have hcond : txt = "" ∨ (jsTrim txt).length = 0 := by
          right
          rw [htrim]
          rfl
        unfold postFeedback at h
        rcases hG : getSession now s' sid with ⟨o, s₁⟩
        rw [hG] at h
        cases o with
        | none => simp at h
        | some _ => simp [hcond] at h

/-- Witness for `claim_c5`: on a concrete live session, space-only text
and vertical-tab-only text (ECMAScript whitespace beyond ASCII spaces)
are rejected with the store unchanged, and `" hi "` is stored trimmed
with the fresh id and the current timestamp. -/
theorem claim_c5_witness :
    postFeedback 1 "f1" [("s", ⟨"s", 0, 100, [], none⟩)] "s"
      (.str "   ") = (.badRequest, [("s", ⟨"s", 0, 100, [], none⟩)]) ∧
    postFeedback 1 "f1" [("s", ⟨"s", 0, 100, [], none⟩)] "s"
      (.str "\u000B") = (.badRequest, [("s", ⟨"s", 0, 100, [], none⟩)]) ∧
    postFeedback 1 "f1" [("s", ⟨"s", 0, 100, [], none⟩)] "s"
      (.str " hi ") =
      (.ok "f1", [("s", ⟨"s", 0, 100, [⟨"f1", "s", "hi", 1⟩], none⟩)]) := by
  have h := claim_c5 1 "f1" [("s", ⟨"s", 0, 100, [], none⟩)] "s"
    ⟨"s", 0, 100, [], none⟩ (by decide) (by decide)
  exact ⟨h.2.2.1 "   " (by decide), h.2.2.1 "\u000B" (by decide),
    (h.2.2.2.1 " hi " (by decide)).trans (by decide)⟩

/-- Claim C6: for a live session `updateCurrentSlide` unconditionally
replaces the stored snapshot and reports success (last-write-wins);
replaying the same snapshot is idempotent (same resulting store); and
after any nonempty sequence of publishes `getCurrentSlide` returns
exactly the last published snapshot — no history is retained. -/
theorem claim_c6 (now : Nat) (s : Store) (sid : String) (sd : SessionData)
    (hget : storeGet s sid = some sd) (hlive : ¬ sd.expiresAt < now) :
    (∀ sl, updateCurrentSlide now s sid sl =
      (true, storeSet s sid { sd with currentSlide := sl })) ∧
    (∀ sl, updateCurrentSlide now (updateCurrentSlide now s sid sl).2 sid sl =
      (true, (updateCurrentSlide now s sid sl).2)) ∧
    (∀ (sls : List (Option SlideData)) (g : Option SlideData),
      sls.getLast? = some g →
      (getCurrentSlide now (publishAll now s sid sls) sid).1 = g) := by
  refine ⟨?_, ?_, ?_⟩
  · intro sl
    exact updateCurrentSlide_live now sl hget hlive
  · intro sl
    have h1 := updateCurrentSlide_live now sl hget hlive
    have hget' : storeGet (updateCurrentSlide now s sid sl).2 sid =
        some { sd with currentSlide := sl } := by
      rw [h1]
      exact storeGet_storeSet_self s sid _
    have h2 := updateCurrentSlide_live now sl hget'
      (by simpa using hlive)
    rw [h2, h1]
    simp [storeSet_storeSet]
  · intro sls g hg
    exact publishAll_getLast now sid sls s sd g hget hlive hg

/-- Witness for `claim_c6`: publishing slide `a` on a concrete live
session stores it, and publishing `a` then `b` leaves exactly `b`. -/
theorem claim_c6_witness :
    updateCurrentSlide 1 [("s", ⟨"s", 0, 100, [], none⟩)] "s"
      (some { id := "a" }) =
      (true, [("s", ⟨"s", 0, 100, [], some { id := "a" }⟩)]) ∧
    (getCurrentSlide 1 (publishAll 1 [("s", ⟨"s", 0, 100, [], none⟩)] "s"
      [some { id := "a" }, some { id := "b" }]) "s").1 =
      some { id := "b" } := by
  have h := claim_c6 1 [("s", ⟨"s", 0, 100, [], none⟩)] "s"
    ⟨"s", 0, 100, [], none⟩ (by decide) (by decide)
  exact ⟨(h.1 (some { id := "a" })).trans (by decide),
    h.2.2 [some { id := "a" }, some { id := "b" }] (some { id := "b" })
      (by decide)⟩

/-- Claim C9: the slide `POST` handler accepts `null` as the snapshot for
a live session and stores it, clearing the current slide: a session whose
current slide was `some x` returns `some x` from `getCurrentSlide` before
the publish and `none` after the successful publish of `null` — so a
`none` answer does not imply nothing was ever published. -/
theorem claim_c9 (now : Nat) (s : Store) (sid : String) (sd : SessionData)
    (x : SlideData) (hget : storeGet s sid = some sd)
    (hlive : ¬ sd.expiresAt < now) (hprev : sd.currentSlide = some x) :
    (getCurrentSlide now s sid).1 = some x ∧
    postSlide now s sid none =
      (.ok, storeSet s sid { sd with currentSlide := none }) ∧
    (getCurrentSlide now (postSlide now s sid none).2 sid).1 = none := by
  have hs := getSession_live now hget hlive
  have hu := updateCurrentSlide_live now none hget hlive
  have h2 : postSlide now s sid none =
      (.ok, storeSet s sid { sd with currentSlide := none }) := by
    simp [postSlide, hs, hu]
  refine ⟨?_, h2, ?_⟩
  · rw [getCurrentSlide_live now hget hlive]
    exact hprev
  · rw [h2]
    have hget' : storeGet (storeSet s sid { sd with currentSlide := none })
        sid = some { sd with currentSlide := none } :=
      storeGet_storeSet_self s sid _
    rw [getCurrentSlide_live now hget' (by simpa using hlive)]

/-- Witness for `claim_c9`: a concrete live session showing slide `a`
returns `ok` for a `null` publish and `getCurrentSlide` then yields
`none`. -/
theorem claim_c9_witness :
    (getCurrentSlide 1
      [("s", ⟨"s", 0, 100, [], some { id := "a" }⟩)] "s").1 =
      some { id := "a" } ∧
    (getCurrentSlide 1
      (postSlide 1 [("s", ⟨"s", 0, 100, [], some { id := "a" }⟩)] "s"
        none).2 "s").1 = none := by
  have h := claim_c9 1 [("s", ⟨"s", 0, 100, [], some { id := "a" }⟩)] "s"
    ⟨"s", 0, 100, [], some { id := "a" }⟩ { id := "a" }
    (by decide) (by decide) rfl
  exact ⟨h.1, h.2.2⟩

/-- Claim C8 counterexample: a session whose TTL has exactly elapsed
(`now = expiresAt`, expired per the spec's "live iff now < expiresAt") is
not rejected at connect time — `getSession`'s strict test lets the
handler open the stream, so the connection does reach OPEN. -/
theorem claim_c8_cex :
    (5 : Nat) ≥ 5 ∧
    (streamGET 5 [("s", ⟨"s", 0, 5, [], none⟩)] "s").1 =
      .opened ⟨[("s", ⟨"s", 0, 5, [], none⟩)], 5, false⟩ := by
  exact ⟨by decide, by decide⟩

/-- Claim C8 (amended): opening the SSE stream for an id that is unknown,
or whose session has `expiresAt < now` at connect time (the code's strict
expiry test), yields the 404 result before any connection is constructed
— the result is never `opened`, and no feedback event is ever emitted for
the attempt under any subsequent schedule. At the boundary instant
`now = expiresAt` the stream is opened instead. -/
theorem claim_c8_amended (now : Nat) (s : Store) (sid : String)
    (h : storeGet s sid = none ∨
      ∃ sd, storeGet s sid = some sd ∧ sd.expiresAt < now) :
    (streamGET now s sid).1 = .notFound ∧
    (∀ conn, (streamGET now s sid).1 ≠ .opened conn) ∧
    (∀ tr, ((streamGET now s sid).1).events sid tr = []) := by
  have hmain : (streamGET now s sid).1 = .notFound := by
    rcases h with h | ⟨sd, h, hx⟩
    · simp [streamGET, getSession_absent now h]
    · simp [streamGET, getSession_expired now h hx]
  refine ⟨hmain, ?_, ?_⟩
  · intro conn hc
    rw [hmain] at hc
    cases hc
  · intro tr
    rw [hmain]
    rfl

/-- Witness for `claim_c8_amended`: an unknown id on the empty store, and
a session expired strictly before `now`, are both rejected with 404 and
emit nothing on a subsequent poll schedule. -/
theorem claim_c8_witness :
    (streamGET 7 [] "nope").1 = .notFound ∧
    (streamGET 7 [] "nope").1.events "nope" [.poll 8] = [] ∧
    (streamGET 9 [("s", ⟨"s", 0, 5, [], none⟩)] "s").1 = .notFound := by
  have h1 := claim_c8_amended 7 [] "nope" (Or.inl (by decide))
  have h2 := claim_c8_amended 9 [("s", ⟨"s", 0, 5, [], none⟩)] "s"
    (Or.inr ⟨⟨"s", 0, 5, [], none⟩, by decide, by decide⟩)
  exact ⟨h1.1, h1.2.2 [.poll 8], h2.1⟩

/-- Once both periodic tasks are cancelled, no scheduler event ever
produces another transport write, and the tasks stay cancelled (an abort
signal arriving after teardown is itself a silent no-op write-wise). -/
theorem connRun_tornDown :
    ∀ (evs : List ConnEvent) (st : TimerState), tornDown st →
      (connRun st evs).2 = [] ∧ tornDown (connRun st evs).1 := by
  intro evs
  induction evs with
  | nil =>
      intro st hdown
      exact ⟨rfl, hdown⟩
  | cons e rest ih =>
      intro st hdown
      have hstep : (connEventStep st e).2 = [] ∧
          tornDown (connEventStep st e).1 := by
        cases e with
        | keepaliveFire =>
            have hka : st.keepAlive = false := hdown.1
            simp [connEventStep, fireKeepalive, hka, tornDown, hdown.2]
        | pollFire live n =>
            have hpo : st.poll = false := hdown.2
            simp [connEventStep, firePoll, hpo, tornDown, hdown.1]
        | abortSignal =>
            simp [connEventStep, fireAbort, tornDown]
      have hrest := ih (connEventStep st e).1 hstep.2
      simp only [connRun]
      exact ⟨by rw [hstep.1, hrest.1]; rfl, hrest.2⟩

/-- Claim C4: every exit path of an open stream — (a) the abort signal,
(b) session expiry detected by a scheduled poll, (c) an enqueue error in
the poll or keepalive callback — cancels both the keepalive and the poll
interval; after teardown no scheduler event produces a keepalive or
feedback write; and each path's cleanup is idempotent (re-running the
exit handler leaves the state fixed and writes nothing). -/
theorem claim_c4 :
    (∀ st : TimerState, tornDown (fireAbort st).1 ∧ (fireAbort st).2 = []) ∧
    (∀ (st : TimerState) (n : Nat), st.poll = true →
      tornDown (firePoll false n st).1 ∧ (firePoll false n st).2 = []) ∧
    (∀ (st : TimerState) (n : Nat), st.poll = true → st.ctrlClosed = true →
      n ≠ 0 → tornDown (firePoll true n st).1 ∧ (firePoll true n st).2 = []) ∧
    (∀ st : TimerState, st.keepAlive = true → st.ctrlClosed = true →
      tornDown (fireKeepalive st).1 ∧ (fireKeepalive st).2 = []) ∧
    (∀ (st : TimerState) (evs : List ConnEvent), tornDown st →
      (connRun st evs).2 = [] ∧ tornDown (connRun st evs).1) ∧
    (∀ st : TimerState, fireAbort (fireAbort st).1 = ((fireAbort st).1, [])) ∧
    (∀ (st : TimerState) (n m : Nat),
      firePoll false m (firePoll false n st).1 = ((firePoll false n st).1, [])) ∧
    (∀ st : TimerState, st.ctrlClosed = true →
      fireKeepalive (fireKeepalive st).1 = ((fireKeepalive st).1, [])) := by
  refine ⟨?_, ?_, ?_, ?_, fun st evs h => connRun_tornDown evs st h, ?_, ?_, ?_⟩
  · intro st
    exact ⟨⟨rfl, rfl⟩, rfl⟩
  · intro st n hpo
    simp [firePoll, hpo, tornDown]
  · intro st n hpo hcc hn
    simp [firePoll, hpo, hcc, hn, tornDown]
  · intro st hka hcc
    simp [fireKeepalive, hka, hcc, tornDown]
  · intro st
    rfl
  · intro st n m
    rcases st with ⟨ka, po, cc⟩
    cases po <;> simp [firePoll]
  · intro st hcc
    rcases st with ⟨ka, po, cc⟩
    cases ka <;> simp_all [fireKeepalive]

/-- Witness for `claim_c4`: from a live connection state, the abort
signal tears both timers down, and a torn-down connection writes nothing
under a concrete schedule of keepalive/poll/abort events. -/
theorem claim_c4_witness :
    tornDown (fireAbort ⟨true, true, false⟩).1 ∧
    (connRun ⟨false, false, true⟩
      [.keepaliveFire, .pollFire true 3, .abortSignal, .pollFire false 1]).2 =
      [] := by
  refine ⟨(claim_c4.1 ⟨true, true, false⟩).1, ?_⟩
  exact (claim_c4.2.2.2.2.1 ⟨false, false, true⟩
    [.keepaliveFire, .pollFire true 3, .abortSignal, .pollFire false 1]
    ⟨rfl, rfl⟩).1

/-- Claim C2: within one connection, under the log invariant (timestamps
non-decreasing in append order, fresh ids) and a well-clocked trace, the
feedback events emitted over the whole connection are in non-decreasing
timestamp order with no item emitted twice; every emitted item's
timestamp strictly exceeds the connection's starting watermark (each
delta poll queries only items above the watermark), and the watermark
only advances forward. -/
theorem claim_c2 (sid : String) (st : ConnState) (tr : List StreamStep)
    (hlog : logWF st.store sid = true) (hv : validTrace sid st tr = true) :
    (streamRun sid st tr).2.Pairwise tsLE ∧
    (streamRun sid st tr).2.Nodup ∧
    (∀ f ∈ (streamRun sid st tr).2, st.watermark < f.timestamp) ∧
    st.watermark ≤ (streamRun sid st tr).1.watermark := by
  have h0 : StreamInv sid st.watermark st [] := by
    refine ⟨List.Pairwise.nil, List.nodup_nil, ?_, ?_, le_rfl, ?_⟩
    · intro f hf
      cases hf
    · intro f hf
      cases hf
    · intro sd hsd
      have hl := hlog
      unfold logWF at hl
      rw [hsd] at hl
      simp only [Bool.and_eq_true, decide_eq_true_eq] at hl
      exact ⟨hl.1, hl.2, List.nil_sublist _⟩
  have h := streamInv_run hv h0
  rw [List.nil_append] at h
  exact ⟨h.emitSorted, h.emitNodup, h.emit_gt_w0, h.w_lb⟩

/-- Witness for `claim_c2`: a concrete connection over the trace
`poll; append; poll` satisfies the log invariant and clock validity, and
the claimed ordering properties hold of its emissions. -/
theorem claim_c2_witness :
    logWF [("s", ⟨"s", 0, 100, [⟨"f1", "s", "a", 1⟩], none⟩)] "s" = true ∧
    validTrace "s"
      ⟨[("s", ⟨"s", 0, 100, [⟨"f1", "s", "a", 1⟩], none⟩)], 0, false⟩
      [.poll 2, .append 3 "f2" "b", .poll 3] = true ∧
    ((streamRun "s"
      ⟨[("s", ⟨"s", 0, 100, [⟨"f1", "s", "a", 1⟩], none⟩)], 0, false⟩
      [.poll 2, .append 3 "f2" "b", .poll 3]).2.Pairwise tsLE ∧
    (streamRun "s"
      ⟨[("s", ⟨"s", 0, 100, [⟨"f1", "s", "a", 1⟩], none⟩)], 0, false⟩
      [.poll 2, .append 3 "f2" "b", .poll 3]).2.Nodup ∧
    (∀ f ∈ (streamRun "s"
      ⟨[("s", ⟨"s", 0, 100, [⟨"f1", "s", "a", 1⟩], none⟩)], 0, false⟩
      [.poll 2, .append 3 "f2" "b", .poll 3]).2, 0 < f.timestamp) ∧
    (0 : Nat) ≤ (streamRun "s"
      ⟨[("s", ⟨"s", 0, 100, [⟨"f1", "s", "a", 1⟩], none⟩)], 0, false⟩
      [.poll 2, .append 3 "f2" "b", .poll 3]).1.watermark) :=
  ⟨by decide, by decide,
    claim_c2 "s" ⟨[("s", ⟨"s", 0, 100, [⟨"f1", "s", "a", 1⟩], none⟩)], 0,
      false⟩ [.poll 2, .append 3 "f2" "b", .poll 3] (by decide) (by decide)⟩

/-- Claim C10: once a connection's watermark stands at `t`, a feedback
item appended afterwards with timestamp exactly `t` is never emitted on
that connection — the append itself emits nothing, and no continuation of
the connection ever emits the item, because every delta poll keeps only
items with timestamp strictly greater than the (forward-only) watermark. -/
theorem claim_c10 (sid fid text : String) (t : Nat) (st : ConnState)
    (hW : st.watermark = t) (tr : List StreamStep) :
    (streamStep sid st (.append t fid text)).2 = [] ∧
    mkFeedback fid sid text t ∉
      (streamRun sid (streamStep sid st (.append t fid text)).1 tr).2 := by
  constructor
  · rw [streamStep_append]
  · intro hmem
    have hw1 : (streamStep sid st (.append t fid text)).1.watermark = t := by
      rw [streamStep_append]
      exact hW
    have hgt := streamRun_out_gt sid tr
      (streamStep sid st (.append t fid text)).1
      (mkFeedback fid sid text t) hmem
    rw [hw1] at hgt
    exact absurd hgt (lt_irrefl t)

/-- Witness for `claim_c10`: with the watermark at 5 (after a poll that
emitted the item timestamped 5), an item appended with timestamp exactly
5 is not emitted by any of the following polls. -/
theorem claim_c10_witness :
    (streamStep "s"
      ⟨[("s", ⟨"s", 0, 100, [⟨"f1", "s", "a", 5⟩], none⟩)], 5, false⟩
      (.append 5 "f2" "b")).2 = [] ∧
    mkFeedback "f2" "s" "b" 5 ∉
      (streamRun "s"
        (streamStep "s"
          ⟨[("s", ⟨"s", 0, 100, [⟨"f1", "s", "a", 5⟩], none⟩)], 5, false⟩
          (.append 5 "f2" "b")).1 [.poll 6, .poll 7]).2 :=
  claim_c10 "s" "f2" "b" 5
    ⟨[("s", ⟨"s", 0, 100, [⟨"f1", "s", "a", 5⟩], none⟩)], 5, false⟩
    rfl [.poll 6, .poll 7]
